import Mathlib

/-!
Shallow embedding of the core of a Redux-style state container, translated
from the TypeScript sources: the store operations of src/src/types/store.ts
(createStore normalization, getState, subscribe, dispatch,
bindActionCreators), the reducer combiner of src/src/combineReducers.ts,
the plain-object predicate of src/unnamed/part_000 and the function
composer of src/unnamed/part_001.

Modelling conventions: JavaScript values are an inductive type carrying a
numeric identity so that strict equality on functions and objects is
reference comparison; JavaScript records are key-ordered association
lists; thrown exceptions are Except errors; the mutable listener arrays of
the store are cells of an explicit heap so that the aliasing between the
current and the pending copy-on-write listener list is represented
faithfully.
-/

namespace Redux

/-- A JavaScript value as seen by this library. Primitives carry their
value; functions and objects carry a numeric identity used for strict
(triple-equals) comparison. An object additionally carries the identities
of its prototype chain, ordered from the immediate prototype down to the
last non-null link; the empty chain is an object whose prototype is null. -/
inductive JSVal where
  | undef
  | jsnull
  | jsbool (b : Bool)
  | jsnum (n : Int)
  | jsstr (s : String)
  | jsfun (id : Nat)
  | jsobj (id : Nat) (chain : List Nat)
deriving DecidableEq

/-- The typeof operator on the value model (typeof null is "object"). -/
def jsTypeof : JSVal → String
  | .undef => "undefined"
  | .jsnull => "object"
  | .jsbool _ => "boolean"
  | .jsnum _ => "number"
  | .jsstr _ => "string"
  | .jsfun _ => "function"
  | .jsobj _ _ => "object"

/-- JavaScript strict equality: primitives by value, functions and objects
by identity. -/
def jsEq : JSVal → JSVal → Bool
  | .undef, .undef => true
  | .jsnull, .jsnull => true
  | .jsbool a, .jsbool b => a == b
  | .jsnum a, .jsnum b => a == b
  | .jsstr a, .jsstr b => a == b
  | .jsfun a, .jsfun b => a == b
  | .jsobj a _, .jsobj b _ => a == b
  | _, _ => false

/-- Object.getPrototypeOf on the value model: the immediate prototype of
an object, or null once the chain is exhausted. Only ever applied to
objects in the source. -/
def getPrototypeOf : JSVal → JSVal
  | .jsobj _ (p :: rest) => .jsobj p rest
  | _ => .jsnull

/-- The while loop of isPlainObject (src/unnamed/part_000): starting from
the object with the given identity and prototype chain, step to the
prototype while it is non-null, and return the identity at which the walk
stops. -/
def protoWalk (id : Nat) : List Nat → Nat
  | [] => id
  | p :: rest => protoWalk p rest

/-- isPlainObject (src/unnamed/part_000): false for non-objects and null;
otherwise walk the prototype chain to its terminal non-null link and
compare that link, by strict equality, with the immediate prototype of
the argument. -/
def isPlainObject (obj : JSVal) : Bool :=
  if jsTypeof obj ≠ "object" ∨ jsEq obj .jsnull then false
  else
    match obj with
    | .jsobj id chain => jsEq (getPrototypeOf obj) (.jsobj (protoWalk id chain) [])
    | _ => false

/-- compose (src/unnamed/part_001): right-to-left composition of a list of
functions; the empty list yields the identity, a one-element list yields
that very function unwrapped, and otherwise the list is reduced pairwise
from the left exactly as Array.prototype.reduce does without a seed. -/
def compose {α : Type} : List (α → α) → (α → α)
  | [] => fun arg => arg
  | [f] => f
  | f :: rest => rest.foldl (fun a b => fun args => a (b args)) f

/-- An opaque identifier standing for a thrown JavaScript exception value,
used to model a reducer that throws during dispatch. -/
abbrev JSException := Nat

/-- The exceptions thrown by the store operations of
src/src/types/store.ts, identified by the condition that raised them. -/
inductive StoreException where
  | actionsMustBePlainObjects
  | undefinedTypeProperty
  | reducersMayNotDispatch
  | getStateWhileReducerExecuting
  | expectedListenerFunction
  | subscribeWhileReducerExecuting
  | unsubscribeWhileReducerExecuting
  | reducerExn (e : JSException)
deriving DecidableEq

/-- An action as consumed by dispatch: the underlying JavaScript value,
which the plain-object predicate inspects, paired with the value of its
type field (undef when the field is absent). -/
structure JAction where
  val : JSVal
  type : JSVal
deriving DecidableEq

/-- The internal mutable state closed over by createStore
(src/src/types/store.ts). The listener arrays live in an explicit heap of
cells so that the aliasing between the current and the pending
copy-on-write listener list is represented: both fields are cell
references, and currentListeners is none when an unsubscribe has
invalidated it. Listener functions are opaque values; their invocation is
modelled by dispatch reporting the contents of the cell it iterates. -/
structure StoreSt (σ : Type) where
  currentReducer : σ → JAction → Except JSException σ
  currentState : σ
  heap : List (List JSVal)
  currentListeners : Option Nat
  nextListeners : Nat
  isDispatching : Bool

/-- ensureCanMutateNextListeners: when the pending list still aliases the
current list, replace it by a shallow copy, modelled as a freshly
allocated heap cell holding the same elements. -/
def ensureCanMutateNextListeners {σ : Type} (st : StoreSt σ) : StoreSt σ :=
  if st.currentListeners = some st.nextListeners then
    { st with
        heap := st.heap ++ [st.heap.getD st.nextListeners []]
        nextListeners := st.heap.length }
  else st

/-- nextListeners.push(listener): append to the pending cell in place. -/
def pushListener {σ : Type} (st : StoreSt σ) (listener : JSVal) : StoreSt σ :=
  { st with
      heap := st.heap.set st.nextListeners
        (st.heap.getD st.nextListeners [] ++ [listener]) }

/-- nextListeners.splice(nextListeners.indexOf(listener), 1): remove the
first strict-equality occurrence from the pending cell, or the last
element when indexOf yields -1, exactly as the JavaScript splice of a
negative index does. -/
def spliceListener {σ : Type} (st : StoreSt σ) (listener : JSVal) : StoreSt σ :=
  { st with
      heap := st.heap.set st.nextListeners
        (match (st.heap.getD st.nextListeners []).findIdx? (fun y => jsEq y listener) with
         | some i => (st.heap.getD st.nextListeners []).eraseIdx i
         | none => (st.heap.getD st.nextListeners []).dropLast) }

/-- getState: forbidden while the reducer is executing, otherwise the
current state reference, with no defensive copy. -/
def getState {σ : Type} (st : StoreSt σ) : Except StoreException σ :=
  if st.isDispatching then .error .getStateWhileReducerExecuting
  else .ok st.currentState

/-- subscribe: reject non-function listeners and calls made while the
reducer is executing; otherwise make the pending list mutable and push
the listener onto it. The returned closure is modelled by unsubscribe
below together with its isSubscribed flag, initially true. -/
def subscribe {σ : Type} (st : StoreSt σ) (listener : JSVal) :
    Except StoreException (StoreSt σ) :=
  if jsTypeof listener ≠ "function" then .error .expectedListenerFunction
  else if st.isDispatching then .error .subscribeWhileReducerExecuting
  else .ok (pushListener (ensureCanMutateNextListeners st) listener)

/-- The body of the unsubscribe closure returned by subscribe: a no-op
once isSubscribed is cleared; otherwise forbidden while the reducer is
executing, and else it clears the flag, makes the pending list mutable,
splices the listener out of it and invalidates currentListeners. Returns
the updated store together with the new flag. -/
def unsubscribe {σ : Type} (st : StoreSt σ) (listener : JSVal) (isSubscribed : Bool) :
    Except StoreException (StoreSt σ × Bool) :=
  if !isSubscribed then .ok (st, isSubscribed)
  else if st.isDispatching then .error .unsubscribeWhileReducerExecuting
  else .ok ({ spliceListener (ensureCanMutateNextListeners st) listener with
                currentListeners := none }, false)

/-- dispatch (src/src/types/store.ts): reject non-plain actions, actions
with an undefined type, and re-entrant dispatch; then run the reducer
with the dispatching flag set, clearing it in the guaranteed-release
finally scope even when the reducer throws; on success adopt the pending
listener list as current and report the adopted cell as the trace of
listeners invoked, in registration order, together with the action, which
is returned unchanged. -/
def dispatch {σ : Type} (st : StoreSt σ) (action : JAction) :
    StoreSt σ × Except StoreException (List JSVal × JAction) :=
  if !isPlainObject action.val then
    (st, .error .actionsMustBePlainObjects)
  else if jsTypeof action.type = "undefined" then
    (st, .error .undefinedTypeProperty)
  else if st.isDispatching then
    (st, .error .reducersMayNotDispatch)
  else
    match st.currentReducer st.currentState action with
    | .error e => ({ st with isDispatching := false }, .error (.reducerExn e))
    | .ok ns =>
        ({ st with
             currentState := ns
             isDispatching := false
             currentListeners := some st.nextListeners },
         .ok (st.heap.getD st.nextListeners [], action))

/-- A store mutation that user code may perform while a dispatch is
iterating its listener snapshot: subscribing a new listener, or running an
unsubscribe closure whose isSubscribed flag is still set. -/
inductive ListenerOp where
  | sub (listener : JSVal)
  | unsub (listener : JSVal)

/-- Apply one listener-phase operation; a thrown exception leaves the
store unchanged. -/
def applyListenerOp {σ : Type} (st : StoreSt σ) : ListenerOp → StoreSt σ
  | .sub l =>
      match subscribe st l with
      | .ok st2 => st2
      | .error _ => st
  | .unsub l =>
      match unsubscribe st l true with
      | .ok (st2, _) => st2
      | .error _ => st

/-- Apply a sequence of listener-phase operations in order. -/
def applyListenerOps {σ : Type} (st : StoreSt σ) : List ListenerOp → StoreSt σ
  | [] => st
  | op :: rest => applyListenerOps (applyListenerOp st op) rest

/-- The invariant protecting an adopted listener cell r with contents L:
the cell holds L, it is allocated, and the pending reference can only
point at r while the current reference also does, so that any mutation of
the pending list is preceded by a copy into a fresh cell. -/
def SnapshotInv {σ : Type} (r : Nat) (L : List JSVal) (st : StoreSt σ) : Prop :=
  st.heap.getD r [] = L ∧ r < st.heap.length ∧
    (st.nextListeners = r → st.currentListeners = some r)

/-- A concrete store over integer state: the reducer increments, one
listener is registered, and the current and pending references both alias
cell 0, as they do right after a dispatch has adopted the pending list. -/
def exStore : StoreSt Int :=
  { currentReducer := fun s _ => .ok (s + 1)
    currentState := 0
    heap := [[JSVal.jsfun 0]]
    currentListeners := some 0
    nextListeners := 0
    isDispatching := false }

/-- A concrete plain-object action carrying the type string "inc". -/
def exAction : JAction := ⟨JSVal.jsobj 2 [0], JSVal.jsstr "inc"⟩

/-- A concrete store over integer state whose reducer always throws the
exception identified by 7. -/
def exThrowStore : StoreSt Int :=
  { currentReducer := fun _ _ => .error 7
    currentState := 5
    heap := [[JSVal.jsfun 0]]
    currentListeners := some 0
    nextListeners := 0
    isDispatching := false }

/-- A slice reducer as called by the combiner: previous slice state
(undefined when the key is absent) and action to next slice state, where
none models a reducer returning undefined. -/
abbrev SliceReducer (V : Type) := Option V → JAction → Option V

/-- The deferred shape-assertion failures of assertReducerShape
(src/src/combineReducers.ts): a slice reducer returned undefined during
initialization, or when probed with a random type. -/
inductive ShapeExn where
  | initUndefined (key : String)
  | probeUndefined (key : String)
deriving DecidableEq

/-- The exceptions thrown by an invocation of the combined reducer: the
captured shape-assertion error, or a slice reducer returning undefined
for the dispatched action, the message naming the key and action type. -/
inductive CombineExn where
  | shapeAssertion (e : ShapeExn)
  | sliceReturnedUndefined (key : String) (actionType : JSVal)
deriving DecidableEq

/-- Property lookup state[key] on a record modelled as a key-ordered
association list: the first binding wins, undefined when absent. -/
def recLookup {V : Type} (s : List (String × V)) (k : String) : Option V :=
  match s.find? (fun p => p.1 == k) with
  | some p => some p.2
  | none => none

/-- Modelled from the spec: the action-type registry (utils/actionTypes
is imported by the sources but is not part of this repository snapshot).
INIT is the fixed reserved bootstrap action type. -/
def ActionTypes.INIT : String := "@@redux/INIT"

/-- Modelled from the spec: the fixed reserved action type dispatched
after replaceReducer. -/
def ActionTypes.REPLACE : String := "@@redux/REPLACE"

/-- Modelled from the spec: PROBE_UNKNOWN_ACTION returns a freshly
randomized string on each call; the randomness is modelled by a seed
argument, threaded so that every call uses a fresh seed. -/
def ActionTypes.PROBE_UNKNOWN_ACTION (seed : Nat) : String :=
  "@@redux/PROBE_UNKNOWN_ACTION." ++ toString seed

/-- A plain-object action value carrying the given type string, as built
by the combiner for its initialization and probe checks. -/
def mkTypeAction (t : String) : JAction :=
  ⟨JSVal.jsobj 1 [0], JSVal.jsstr t⟩

/-- assertReducerShape (src/src/combineReducers.ts): for each slice
reducer in order, feed undefined state with the INIT action and then with
a freshly randomized probe action; the result is the error for the first
slice that returns undefined, none when all slices pass. -/
def assertReducerShape {V : Type} (seed : Nat) :
    List (String × SliceReducer V) → Option ShapeExn
  | [] => none
  | (key, reducer) :: rest =>
      match reducer none (mkTypeAction ActionTypes.INIT) with
      | none => some (.initUndefined key)
      | some _ =>
          match reducer none (mkTypeAction (ActionTypes.PROBE_UNKNOWN_ACTION seed)) with
          | none => some (.probeUndefined key)
          | some _ => assertReducerShape (seed + 1) rest

/-- The loop of the combined reducer (src/src/combineReducers.ts):
iterate the slice reducers in insertion order, compute each next slice
from the corresponding slice of the previous state, throw when a slice
returns undefined, build the next record, and accumulate hasChanged as
the disjunction of the per-slice reference inequalities. -/
def combineLoop {V : Type} [DecidableEq V]
    (finalReducers : List (String × SliceReducer V))
    (state : List (String × V)) (action : JAction) (hasChanged : Bool) :
    Except CombineExn (List (String × V) × Bool) :=
  match finalReducers with
  | [] => .ok ([], hasChanged)
  | (key, reducer) :: rest =>
      match reducer (recLookup state key) action with
      | none => .error (.sliceReturnedUndefined key action.type)
      | some nextStateForKey =>
          match combineLoop rest state action
              (hasChanged || decide (some nextStateForKey ≠ recLookup state key)) with
          | .error e => .error e
          | .ok (ns, hc) => .ok ((key, nextStateForKey) :: ns, hc)

/-- combination (src/src/combineReducers.ts): rethrow the captured
shape-assertion error if any; otherwise run the slice loop, extend
hasChanged by the key-count comparison, and return the freshly built
record when something changed, else the exact previous state reference.
The development-mode warning block only emits a message and is omitted. -/
def combination {V : Type} [DecidableEq V] (shapeAssertionError : Option ShapeExn)
    (finalReducers : List (String × SliceReducer V))
    (state : List (String × V)) (action : JAction) :
    Except CombineExn (List (String × V)) :=
  match shapeAssertionError with
  | some e => .error (.shapeAssertion e)
  | none =>
      match combineLoop finalReducers state action false with
      | .error e => .error e
      | .ok (nextState, hasChanged) =>
          if hasChanged || decide (finalReducers.length ≠ state.length)
          then .ok nextState
          else .ok state

/-- The entries of the reducers record whose values are functions, in
insertion order; the value none models a non-function entry, which the
combiner drops (with only a development-mode warning). -/
def finalReducersOf {V : Type} (reducers : List (String × Option (SliceReducer V))) :
    List (String × SliceReducer V) :=
  reducers.filterMap (fun p => p.2.map (fun r => (p.1, r)))

/-- combineReducers (src/src/combineReducers.ts): filter the record to
its function entries, run the shape assertion in a try scope capturing
any failure, and return the captured error together with the combination
closure over it. Construction itself always returns; the captured error
is rethrown on every invocation of the returned reducer. -/
def combineReducers {V : Type} [DecidableEq V] (seed : Nat)
    (reducers : List (String × Option (SliceReducer V))) :
    Option ShapeExn ×
      (List (String × V) → JAction → Except CombineExn (List (String × V))) :=
  (assertReducerShape seed (finalReducersOf reducers),
   fun state action =>
     combination (assertReducerShape seed (finalReducersOf reducers))
       (finalReducersOf reducers) state action)

/-- The createStore argument-normalization failures
(src/src/types/store.ts). -/
inductive CreateStoreExn where
  | severalEnhancers
  | enhancerNotFunction
  | reducerNotFunction
deriving DecidableEq

/-- The outcome of createStore argument normalization: either the tail
call enhancer(createStore)(reducer, preloadedState), represented
symbolically by the three values involved, or proceeding to base store
construction with the normalized reducer and preloaded state. -/
inductive CreateOutcome where
  | delegate (enhancer reducer preloadedState : JSVal)
  | base (reducer preloadedState : JSVal)
deriving DecidableEq

/-- The tail of createStore after the argument shift: a present
enhancer must be a function and receives the delegated tail call;
otherwise the reducer must be a function and base construction begins. -/
def createStoreTail (reducer preloadedState enhancer : JSVal) :
    Except CreateStoreExn CreateOutcome :=
  if jsTypeof enhancer ≠ "undefined" then
    if jsTypeof enhancer ≠ "function" then .error .enhancerNotFunction
    else .ok (.delegate enhancer reducer preloadedState)
  else if jsTypeof reducer ≠ "function" then .error .reducerNotFunction
  else .ok (.base reducer preloadedState)

/-- The argument normalization of createStore (src/src/types/store.ts):
reject two function-typed enhancer candidates, shift a function-typed
preloadedState into the enhancer position when no enhancer is given, and
continue with the tail above; arg3 models arguments[3]. -/
def createStore (reducer preloadedState enhancer arg3 : JSVal) :
    Except CreateStoreExn CreateOutcome :=
  if (jsTypeof preloadedState = "function" ∧ jsTypeof enhancer = "function") ∨
     (jsTypeof enhancer = "function" ∧ jsTypeof arg3 = "function") then
    .error .severalEnhancers
  else if jsTypeof preloadedState = "function" ∧ jsTypeof enhancer = "undefined" then
    createStoreTail reducer JSVal.undef preloadedState
  else
    createStoreTail reducer preloadedState enhancer

/-- A value of the action-creators record: either an action creator
function or a non-function value, which bindActionCreators skips. -/
inductive CreatorVal (α : Type) where
  | fn (f : α → JAction)
  | other (v : JSVal)

/-- The first argument of bindActionCreators: a single action creator
function, a record of values, or an invalid value that is neither a
function nor an object. -/
inductive CreatorsArg (α : Type) where
  | single (f : α → JAction)
  | map (m : List (String × CreatorVal α))
  | invalid (v : JSVal)

/-- The result of bindActionCreators: a single bound function or a
record of bound functions. -/
inductive BoundCreators (α R : Type) where
  | single (f : α → R)
  | map (m : List (String × (α → R)))

/-- The exception thrown by bindActionCreators on an argument that is
neither an object nor a function. -/
inductive BindExn where
  | expectedObjectOrFunction
deriving DecidableEq

/-- bindActionCreator (src/src/types/store.ts): wrap one action creator
so that calling the wrapper dispatches the produced action; the argument
tuple of the creator is modelled by a single value of type α, and the
dispatch function by an arbitrary function out of actions. -/
def bindActionCreator {α R : Type} (actionCreator : α → JAction)
    (dispatchFn : JAction → R) : α → R :=
  fun args => dispatchFn (actionCreator args)

/-- bindActionCreators (src/src/types/store.ts): a single function is
bound directly; a value that is neither a function nor an object throws;
a record is rebuilt key by key in order, binding each function value and
skipping the rest. -/
def bindActionCreators {α R : Type} (actionCreators : CreatorsArg α)
    (dispatchFn : JAction → R) : Except BindExn (BoundCreators α R) :=
  match actionCreators with
  | .single f => .ok (.single (bindActionCreator f dispatchFn))
  | .invalid _ => .error .expectedObjectOrFunction
  | .map m =>
      .ok (.map (m.filterMap (fun p =>
        match p.2 with
        | .fn f => some (p.1, bindActionCreator f dispatchFn)
        | .other _ => none)))

/-- A concrete identity slice reducer over integer slices. -/
def exIdSlice : SliceReducer Int := fun s _ => s

/-- A concrete slice-reducer record with the single key a bound to the
identity slice reducer. -/
def exFrs : List (String × SliceReducer Int) := [("a", exIdSlice)]

/-- A concrete record state binding key a to 5. -/
def exRecState : List (String × Int) := [("a", 5)]

/-- A reducers record whose only slice reducer fails the initialization
shape check, because the identity returns undefined for undefined state. -/
def exBadReducers : List (String × Option (SliceReducer Int)) := [("a", some exIdSlice)]

end Redux

namespace Redux

/-- The terminal of the prototype walk is the last link of the chain, or
the starting identity when the chain is empty. -/
theorem protoWalk_eq_getLastD (a : Nat) (l : List Nat) : protoWalk a l = l.getLastD a := by
  induction l generalizing a with
  | nil => rfl
  | cons p rest ih => rw [protoWalk, ih, List.getLastD_cons]

/-- The last link of a non-empty chain is the terminal of the walk started
at its head. -/
theorem getLast?_eq_protoWalk (p : Nat) (rest : List Nat) :
    (p :: rest).getLast? = some (protoWalk p rest) := by
  induction rest generalizing p with
  | nil => rfl
  | cons q t ih => rw [List.getLast?_cons_cons, protoWalk]; exact ih q

/-- isPlainObject on a value that is not of object type is false. -/
theorem isPlainObject_nonobject (v : JSVal) (h : jsTypeof v ≠ "object") :
    isPlainObject v = false := by
  unfold isPlainObject
  rw [if_pos (Or.inl h)]

/-- Computation rule of isPlainObject on an object: the guard passes and
the result is the comparison of the immediate prototype with the walk
terminal. -/
theorem isPlainObject_jsobj (id : Nat) (chain : List Nat) :
    isPlainObject (JSVal.jsobj id chain) =
      jsEq (getPrototypeOf (JSVal.jsobj id chain)) (JSVal.jsobj (protoWalk id chain) []) := by
  unfold isPlainObject
  rw [if_neg]
  simp [jsTypeof, jsEq]

/-- Claim C7: compose with zero arguments applied to any input returns
that input; compose of a single function is that very function, unwrapped;
and compose of three functions applies them right to left. -/
theorem compose_laws {α : Type} :
    (∀ x : α, compose [] x = x) ∧
    (∀ f : α → α, compose [f] = f) ∧
    (∀ f g h : α → α, ∀ x : α, compose [f, g, h] x = f (g (h x))) :=
  ⟨fun _ => rfl, fun _ => rfl, fun _ _ _ _ => rfl⟩

/-- Claim C10: isPlainObject holds exactly for values of object type whose
immediate prototype equals the terminal non-null link of the prototype
chain; consequently it is false for undefined, null, booleans, numbers,
strings, functions, objects created with a null prototype, and objects
whose immediate prototype differs from the chain terminal, such as arrays
and class instances. -/
theorem isPlainObject_characterization :
    (∀ v : JSVal, isPlainObject v = true ↔
       ∃ id p rest, v = JSVal.jsobj id (p :: rest) ∧ (p :: rest).getLast? = some p) ∧
    isPlainObject JSVal.undef = false ∧
    isPlainObject JSVal.jsnull = false ∧
    (∀ b, isPlainObject (JSVal.jsbool b) = false) ∧
    (∀ n, isPlainObject (JSVal.jsnum n) = false) ∧
    (∀ s, isPlainObject (JSVal.jsstr s) = false) ∧
    (∀ id, isPlainObject (JSVal.jsfun id) = false) ∧
    (∀ id, isPlainObject (JSVal.jsobj id []) = false) ∧
    (∀ id p q, p ≠ q → isPlainObject (JSVal.jsobj id [p, q]) = false) := by
  refine ⟨?_, ?_, ?_, ?_, ?_, ?_, ?_, ?_, ?_⟩
  · intro v
    constructor
    · intro hv
      cases v with
      | jsobj id chain =>
          cases chain with
          | nil => rw [isPlainObject_jsobj] at hv; simp [getPrototypeOf, jsEq] at hv
          | cons p rest =>
              rw [isPlainObject_jsobj] at hv
              simp only [getPrototypeOf, protoWalk, jsEq, beq_iff_eq] at hv
              exact ⟨id, p, rest, rfl, by
                rw [getLast?_eq_protoWalk]; exact congrArg some hv.symm⟩
      | undef => exact absurd hv (by decide)
      | jsnull => exact absurd hv (by decide)
      | jsbool b =>
          rw [isPlainObject_nonobject (JSVal.jsbool b) (by simp only [jsTypeof]; decide)] at hv
          exact absurd hv (by decide)
      | jsnum n =>
          rw [isPlainObject_nonobject (JSVal.jsnum n) (by simp only [jsTypeof]; decide)] at hv
          exact absurd hv (by decide)
      | jsstr s =>
          rw [isPlainObject_nonobject (JSVal.jsstr s) (by simp only [jsTypeof]; decide)] at hv
          exact absurd hv (by decide)
      | jsfun id =>
          rw [isPlainObject_nonobject (JSVal.jsfun id) (by simp only [jsTypeof]; decide)] at hv
          exact absurd hv (by decide)
    · rintro ⟨id, p, rest, rfl, hlast⟩
      rw [getLast?_eq_protoWalk] at hlast
      rw [isPlainObject_jsobj]
      simp only [getPrototypeOf, protoWalk, jsEq, beq_iff_eq]
      exact (Option.some_injective _ hlast).symm
  · decide
  · decide
  · intro b; exact isPlainObject_nonobject (JSVal.jsbool b) (by simp only [jsTypeof]; decide)
  · intro n; exact isPlainObject_nonobject (JSVal.jsnum n) (by simp only [jsTypeof]; decide)
  · intro s; exact isPlainObject_nonobject (JSVal.jsstr s) (by simp only [jsTypeof]; decide)
  · intro id; exact isPlainObject_nonobject (JSVal.jsfun id) (by simp only [jsTypeof]; decide)
  · intro id; rw [isPlainObject_jsobj]; simp [getPrototypeOf, jsEq]
  · intro id p q hpq
    rw [isPlainObject_jsobj]
    simp only [getPrototypeOf, protoWalk, jsEq, beq_eq_false_iff_ne, ne_eq]
    exact fun h => hpq h

/-- Witness for Claim C10 at a concrete input: an object two steps above
the root, with distinct links, is not plain. -/
theorem isPlainObject_characterization_witness :
    isPlainObject (JSVal.jsobj 3 [1, 0]) = false :=
  isPlainObject_characterization.2.2.2.2.2.2.2.2 3 1 0 (by decide)

/-- The typeof of a value is "undefined" exactly for undefined. -/
theorem jsTypeof_eq_undefined {v : JSVal} : jsTypeof v = "undefined" ↔ v = JSVal.undef := by
  cases v <;> simp [jsTypeof]

/-- getD into the left part of an append is unaffected by the tail. -/
theorem getD_append_lt {α : Type} (l l2 : List α) (n : Nat) (d : α) (h : n < l.length) :
    (l ++ l2).getD n d = l.getD n d := by
  induction l generalizing n with
  | nil => exact absurd h (Nat.not_lt_zero n)
  | cons a t ih =>
      cases n with
      | zero => rfl
      | succ m => exact ih m (Nat.lt_of_succ_lt_succ h)

/-- getD at an index other than the one written by set is unchanged. -/
theorem getD_set_ne {α : Type} (l : List α) (n r : Nat) (x : α) (d : α) (h : r ≠ n) :
    (l.set n x).getD r d = l.getD r d := by
  induction l generalizing n r with
  | nil => rfl
  | cons a t ih =>
      cases n with
      | zero =>
          cases r with
          | zero => exact absurd rfl h
          | succ m => rfl
      | succ k =>
          cases r with
          | zero => rfl
          | succ m => exact ih k m (fun hh => h (congrArg Nat.succ hh))

/-- The copy-on-write step never changes the contents of an allocated cell. -/
theorem ensure_heap_getD {σ : Type} (st : StoreSt σ) (r : Nat) (h : r < st.heap.length) :
    (ensureCanMutateNextListeners st).heap.getD r [] = st.heap.getD r [] := by
  unfold ensureCanMutateNextListeners
  split
  · exact getD_append_lt _ _ _ _ h
  · rfl

/-- The copy-on-write step keeps every allocated cell allocated. -/
theorem ensure_heap_lt {σ : Type} (st : StoreSt σ) (r : Nat) (h : r < st.heap.length) :
    r < (ensureCanMutateNextListeners st).heap.length := by
  unfold ensureCanMutateNextListeners
  split
  · simp only [List.length_append, List.length_cons, List.length_nil]
    omega
  · exact h

/-- The copy-on-write step does not touch the current reference. -/
theorem ensure_currentListeners {σ : Type} (st : StoreSt σ) :
    (ensureCanMutateNextListeners st).currentListeners = st.currentListeners := by
  unfold ensureCanMutateNextListeners
  split <;> rfl

/-- After the copy-on-write step, the pending reference no longer aliases
the protected cell r, provided it could only alias r together with the
current reference. -/
theorem ensure_nextListeners_ne {σ : Type} (st : StoreSt σ) (r : Nat)
    (h : r < st.heap.length)
    (himp : st.nextListeners = r → st.currentListeners = some r) :
    (ensureCanMutateNextListeners st).nextListeners ≠ r := by
  unfold ensureCanMutateNextListeners
  split
  · intro hr
    have hlen : st.heap.length = r := hr
    omega
  · intro hr
    next hc => exact hc (by rw [hr, himp hr])

/-- Writing any contents into the pending cell after the copy-on-write
step preserves the snapshot invariant for the adopted cell. -/
theorem snapshotInv_write_pending {σ : Type} (r : Nat) (L : List JSVal) (st : StoreSt σ)
    (hinv : SnapshotInv r L st) (cell2 : List JSVal) (curr2 : Option Nat) :
    SnapshotInv r L
      { ensureCanMutateNextListeners st with
          heap := (ensureCanMutateNextListeners st).heap.set
            (ensureCanMutateNextListeners st).nextListeners cell2
          currentListeners := curr2 } := by
  obtain ⟨hL, hlt, himp⟩ := hinv
  have hne := ensure_nextListeners_ne st r hlt himp
  refine ⟨?_, ?_, ?_⟩
  · show ((ensureCanMutateNextListeners st).heap.set
        (ensureCanMutateNextListeners st).nextListeners cell2).getD r [] = L
    rw [getD_set_ne _ _ _ _ _ (Ne.symm hne), ensure_heap_getD st r hlt, hL]
  · show r < ((ensureCanMutateNextListeners st).heap.set
        (ensureCanMutateNextListeners st).nextListeners cell2).length
    simpa only [List.length_set] using ensure_heap_lt st r hlt
  · intro hr
    exact absurd hr hne

/-- One listener-phase operation preserves the snapshot invariant. -/
theorem snapshotInv_applyListenerOp {σ : Type} (r : Nat) (L : List JSVal) (st : StoreSt σ)
    (op : ListenerOp) (hinv : SnapshotInv r L st) :
    SnapshotInv r L (applyListenerOp st op) := by
  cases op with
  | sub l =>
      by_cases h1 : jsTypeof l ≠ "function"
      · have hs : subscribe st l = .error .expectedListenerFunction := by
          unfold subscribe; rw [if_pos h1]
        simp only [applyListenerOp, hs]
        exact hinv
      · by_cases h2 : st.isDispatching = true
        · have hs : subscribe st l = .error .subscribeWhileReducerExecuting := by
            unfold subscribe; rw [if_neg h1, if_pos h2]
          simp only [applyListenerOp, hs]
          exact hinv
        · have hs : subscribe st l =
              .ok (pushListener (ensureCanMutateNextListeners st) l) := by
            unfold subscribe; rw [if_neg h1, if_neg h2]
          simp only [applyListenerOp, hs]
          exact snapshotInv_write_pending r L st hinv _ _
  | unsub l =>
      by_cases h2 : st.isDispatching = true
      · have hs : unsubscribe st l true = .error .unsubscribeWhileReducerExecuting := by
          unfold unsubscribe; rw [if_neg (by simp), if_pos h2]
        simp only [applyListenerOp, hs]
        exact hinv
      · have hs : unsubscribe st l true =
            .ok ({ spliceListener (ensureCanMutateNextListeners st) l with
                     currentListeners := none }, false) := by
          unfold unsubscribe; rw [if_neg (by simp), if_neg h2]
        simp only [applyListenerOp, hs]
        exact snapshotInv_write_pending r L st hinv _ _

/-- A sequence of listener-phase operations preserves the snapshot
invariant. -/
theorem snapshotInv_applyListenerOps {σ : Type} (r : Nat) (L : List JSVal)
    (ops : List ListenerOp) (st : StoreSt σ) (hinv : SnapshotInv r L st) :
    SnapshotInv r L (applyListenerOps st ops) := by
  induction ops generalizing st with
  | nil => exact hinv
  | cons op rest ih =>
      exact ih (applyListenerOp st op) (snapshotInv_applyListenerOp r L st op hinv)

/-- Claim C3: once a dispatch has adopted the pending listener list as
current (both references alias the same allocated cell), any sequence of
subscribes and unsubscribes leaves that cell untouched: every mutation is
redirected to a copy-on-write pending cell that only the next dispatch
will adopt, so the notification set of the in-progress dispatch is fixed
at the moment iteration begins. -/
theorem listener_list_snapshot {σ : Type} (st : StoreSt σ) (r : Nat)
    (ops : List ListenerOp)
    (hadopt : st.currentListeners = some r) (hnext : st.nextListeners = r)
    (hlt : r < st.heap.length) :
    (applyListenerOps st ops).heap.getD r [] = st.heap.getD r [] :=
  (snapshotInv_applyListenerOps r (st.heap.getD r []) ops st
    ⟨rfl, hlt, fun _ => hnext ▸ hadopt⟩).1

/-- Witness for Claim C3: on the concrete example store, a subscribe
followed by an unsubscribe of the original listener leaves the adopted
cell 0 unchanged. -/
theorem listener_list_snapshot_witness :
    (applyListenerOps exStore
        [ListenerOp.sub (JSVal.jsfun 9), ListenerOp.unsub (JSVal.jsfun 0)]).heap.getD 0 []
      = exStore.heap.getD 0 [] :=
  listener_list_snapshot exStore 0
    [ListenerOp.sub (JSVal.jsfun 9), ListenerOp.unsub (JSVal.jsfun 0)]
    rfl rfl (by decide)

/-- Claim C1: dispatching a plain-object action with a defined type on a
store that is not already dispatching replaces the current state by the
reducer applied to the previous state and the action, adopts the pending
listener list as current and notifies exactly its members in registration
order, and returns the very action that was dispatched. -/
theorem dispatch_commits_and_notifies {σ : Type} (st : StoreSt σ) (a : JAction) (ns : σ)
    (hplain : isPlainObject a.val = true) (htype : a.type ≠ JSVal.undef)
    (hnotd : st.isDispatching = false)
    (hred : st.currentReducer st.currentState a = .ok ns) :
    dispatch st a =
      ({ st with
           currentState := ns
           isDispatching := false
           currentListeners := some st.nextListeners },
       .ok (st.heap.getD st.nextListeners [], a)) := by
  unfold dispatch
  rw [if_neg (by simp [hplain]),
    if_neg (fun h => htype (jsTypeof_eq_undefined.mp h)),
    if_neg (by simp [hnotd]), hred]

/-- Witness for Claim C1 on the concrete example store and action. -/
theorem dispatch_commits_and_notifies_witness :
    dispatch exStore exAction =
      ({ exStore with
           currentState := 1
           isDispatching := false
           currentListeners := some 0 },
       .ok ([JSVal.jsfun 0], exAction)) :=
  dispatch_commits_and_notifies exStore exAction 1 rfl (by decide) rfl rfl

/-- Claim C4: dispatching a value that fails the plain-object predicate,
or a plain object whose type field is undefined, throws, leaves the store
untouched so that getState afterwards returns the same reference as
before, and notifies no listener. -/
theorem dispatch_rejections {σ : Type} (st : StoreSt σ) (a : JAction) :
    (isPlainObject a.val = false →
       dispatch st a = (st, .error .actionsMustBePlainObjects)) ∧
    (isPlainObject a.val = true → a.type = JSVal.undef →
       dispatch st a = (st, .error .undefinedTypeProperty)) ∧
    (isPlainObject a.val = false ∨ a.type = JSVal.undef →
       (dispatch st a).1 = st ∧ getState (dispatch st a).1 = getState st) := by
  refine ⟨?_, ?_, ?_⟩
  · intro hplain
    unfold dispatch
    rw [if_pos (by simp [hplain])]
  · intro hplain htype
    unfold dispatch
    rw [if_neg (by simp [hplain]), if_pos (jsTypeof_eq_undefined.mpr htype)]
  · intro hcase
    by_cases hplain : isPlainObject a.val = true
    · have htype : a.type = JSVal.undef := by
        cases hcase with
        | inl h => rw [hplain] at h; cases h
        | inr h => exact h
      have heq : dispatch st a = (st, .error .undefinedTypeProperty) := by
        unfold dispatch
        rw [if_neg (by simp [hplain]), if_pos (jsTypeof_eq_undefined.mpr htype)]
      rw [heq]
      exact ⟨rfl, rfl⟩
    · have hplain2 : isPlainObject a.val = false := by
        cases hv : isPlainObject a.val
        · rfl
        · exact absurd hv hplain
      have heq : dispatch st a = (st, .error .actionsMustBePlainObjects) := by
        unfold dispatch
        rw [if_pos (by simp [hplain2])]
      rw [heq]
      exact ⟨rfl, rfl⟩

/-- Witness for Claim C4: dispatching the number 3 throws the plain-object
rejection and leaves the concrete example store unchanged. -/
theorem dispatch_rejections_witness :
    dispatch exStore ⟨JSVal.jsnum 3, JSVal.undef⟩ =
      (exStore, .error .actionsMustBePlainObjects) :=
  (dispatch_rejections exStore ⟨JSVal.jsnum 3, JSVal.undef⟩).1 rfl

/-- subscribe succeeds on a function listener whenever the dispatching
flag is clear. -/
theorem subscribe_ok {σ : Type} (st : StoreSt σ) (l : JSVal)
    (hl : jsTypeof l = "function") (hd : st.isDispatching = false) :
    subscribe st l = .ok (pushListener (ensureCanMutateNextListeners st) l) := by
  unfold subscribe
  rw [if_neg (fun hc => hc hl), if_neg (by simp [hd])]

/-- A store whose dispatching flag is clear can never fail a dispatch with
the re-entrancy error. -/
theorem dispatch_no_reentrancy_error {σ : Type} (st : StoreSt σ)
    (h : st.isDispatching = false) (a2 : JAction) :
    (dispatch st a2).2 ≠ .error .reducersMayNotDispatch := by
  unfold dispatch
  by_cases h1 : (!isPlainObject a2.val) = true
  · rw [if_pos h1]; simp
  · rw [if_neg h1]
    by_cases h2 : jsTypeof a2.type = "undefined"
    · rw [if_pos h2]; simp
    · rw [if_neg h2, if_neg (by simp [h])]
      cases hres : st.currentReducer st.currentState a2 with
      | error e => simp
      | ok ns => simp

/-- Claim C5: when the reducer throws during dispatch, the exception
propagates out of dispatch, the dispatching flag is false afterwards, and
the store is not locked: getState succeeds with the unchanged state,
subscribe succeeds for any function listener, and a later dispatch can
never fail with the re-entrancy error. -/
theorem dispatch_reducer_throw_releases {σ : Type} (st : StoreSt σ) (a : JAction)
    (e : JSException)
    (hplain : isPlainObject a.val = true) (htype : a.type ≠ JSVal.undef)
    (hnotd : st.isDispatching = false)
    (hred : st.currentReducer st.currentState a = .error e) :
    dispatch st a = ({ st with isDispatching := false }, .error (.reducerExn e)) ∧
    (dispatch st a).1.isDispatching = false ∧
    getState (dispatch st a).1 = .ok st.currentState ∧
    (∀ l, jsTypeof l = "function" → ∃ st2, subscribe (dispatch st a).1 l = .ok st2) ∧
    (∀ a2, (dispatch (dispatch st a).1 a2).2 ≠ .error .reducersMayNotDispatch) := by
  have heq : dispatch st a = ({ st with isDispatching := false }, .error (.reducerExn e)) := by
    unfold dispatch
    rw [if_neg (by simp [hplain]),
      if_neg (fun h => htype (jsTypeof_eq_undefined.mp h)),
      if_neg (by simp [hnotd]), hred]
  refine ⟨heq, ?_, ?_, ?_, ?_⟩
  · rw [heq]
  · rw [heq]; rfl
  · intro l hl
    rw [heq]
    exact ⟨_, subscribe_ok _ l hl rfl⟩
  · intro a2
    rw [heq]
    exact dispatch_no_reentrancy_error _ rfl a2

/-- Witness for Claim C5 on the concrete store whose reducer throws. -/
theorem dispatch_reducer_throw_releases_witness :
    dispatch exThrowStore exAction =
        ({ exThrowStore with isDispatching := false }, .error (.reducerExn 7)) ∧
    (dispatch exThrowStore exAction).1.isDispatching = false ∧
    getState (dispatch exThrowStore exAction).1 = .ok 5 ∧
    (∀ l, jsTypeof l = "function" →
       ∃ st2, subscribe (dispatch exThrowStore exAction).1 l = .ok st2) ∧
    (∀ a2, (dispatch (dispatch exThrowStore exAction).1 a2).2 ≠
       .error .reducersMayNotDispatch) :=
  dispatch_reducer_throw_releases exThrowStore exAction 7 rfl (by decide) rfl rfl

/-- The record built by a successful slice loop carries exactly the
slice-reducer keys, in order. -/
theorem combineLoop_keys {V : Type} [DecidableEq V]
    (frs : List (String × SliceReducer V)) (state : List (String × V)) (a : JAction)
    (hc0 : Bool) (ns : List (String × V)) (b : Bool)
    (h : combineLoop frs state a hc0 = .ok (ns, b)) :
    ns.map Prod.fst = frs.map Prod.fst := by
  induction frs generalizing hc0 ns b with
  | nil =>
      simp only [combineLoop, Except.ok.injEq, Prod.mk.injEq] at h
      rw [← h.1]
      rfl
  | cons p rest ih =>
      obtain ⟨key, reducer⟩ := p
      simp only [combineLoop] at h
      split at h
      · cases h
      · split at h
        · cases h
        · next ns2 b2 heq2 =>
            cases h
            simp only [List.map_cons]
            rw [ih _ _ _ heq2]

/-- When every slice reducer returns its defined input slice unchanged,
the slice loop succeeds with hasChanged still false. -/
theorem combineLoop_identity {V : Type} [DecidableEq V]
    (frs : List (String × SliceReducer V)) (state : List (String × V)) (a : JAction)
    (h : ∀ p ∈ frs, p.2 (recLookup state p.1) a = recLookup state p.1 ∧
           (recLookup state p.1).isSome) :
    ∃ ns, combineLoop frs state a false = .ok (ns, false) := by
  induction frs with
  | nil => exact ⟨[], rfl⟩
  | cons p rest ih =>
      obtain ⟨key, reducer⟩ := p
      obtain ⟨hid, hsome⟩ := h (key, reducer) (List.mem_cons_self _ _)
      have hid2 : reducer (recLookup state key) a = recLookup state key := hid
      have hsome2 : (recLookup state key).isSome = true := hsome
      obtain ⟨v, hv⟩ := Option.isSome_iff_exists.mp hsome2
      obtain ⟨ns, hns⟩ := ih (fun q hq => h q (List.mem_cons_of_mem _ hq))
      rw [hv] at hid2
      refine ⟨(key, v) :: ns, ?_⟩
      simp [combineLoop, hv, hid2, hns]

/-- When the slice loop succeeds with hasChanged false, the initial
accumulator was false and every slice reducer returned its defined input
slice unchanged. -/
theorem combineLoop_unchanged {V : Type} [DecidableEq V]
    (frs : List (String × SliceReducer V)) (state : List (String × V)) (a : JAction)
    (hc0 : Bool) (ns : List (String × V))
    (h : combineLoop frs state a hc0 = .ok (ns, false)) :
    hc0 = false ∧ ∀ p ∈ frs, p.2 (recLookup state p.1) a = recLookup state p.1 ∧
      (recLookup state p.1).isSome := by
  induction frs generalizing hc0 ns with
  | nil =>
      simp only [combineLoop, Except.ok.injEq, Prod.mk.injEq] at h
      exact ⟨h.2, by simp⟩
  | cons p rest ih =>
      obtain ⟨key, reducer⟩ := p
      simp only [combineLoop] at h
      split at h
      · cases h
      · next v hr =>
          split at h
          · cases h
          · next ns2 b2 hrec =>
              simp only [Except.ok.injEq, Prod.mk.injEq] at h
              rw [h.2] at hrec
              obtain ⟨hacc, hrest⟩ := ih _ _ hrec
              obtain ⟨hc0f, hdec⟩ := Bool.or_eq_false_iff.mp hacc
              have hveq : some v = recLookup state key :=
                not_not.mp (of_decide_eq_false hdec)
              refine ⟨hc0f, ?_⟩
              intro q hq
              rcases List.mem_cons.mp hq with hqh | hqr
              · rw [hqh]
                refine ⟨show reducer (recLookup state key) a = recLookup state key by
                    rw [hr, hveq], ?_⟩
                show (recLookup state key).isSome = true
                rw [← hveq]
                rfl
              · exact hrest q hqr

/-- Claim C2: if every slice reducer returns its input slice reference
unchanged (each slice being present) and the number of slice reducers
equals the number of keys of the state, the combined reducer returns the
exact input state reference; otherwise, whenever it returns at all, it
returns the freshly built record whose keys are the slice-reducer keys. -/
theorem combination_reference_passthrough {V : Type} [DecidableEq V]
    (frs : List (String × SliceReducer V)) (state : List (String × V)) (a : JAction) :
    ((∀ p ∈ frs, p.2 (recLookup state p.1) a = recLookup state p.1 ∧
        (recLookup state p.1).isSome) ∧ frs.length = state.length →
      combination none frs state a = .ok state) ∧
    (∀ t, combination none frs state a = .ok t →
      ¬((∀ p ∈ frs, p.2 (recLookup state p.1) a = recLookup state p.1 ∧
           (recLookup state p.1).isSome) ∧ frs.length = state.length) →
      t.map Prod.fst = frs.map Prod.fst) := by
  constructor
  · rintro ⟨hid, hlen⟩
    obtain ⟨ns, hns⟩ := combineLoop_identity frs state a hid
    simp only [combination, hns]
    rw [if_neg (by simp [hlen])]
  · intro t ht hnot
    simp only [combination] at ht
    split at ht
    · cases ht
    · next ns hc hloop =>
        by_cases hcond : (hc || decide (frs.length ≠ state.length)) = true
        · rw [if_pos hcond] at ht
          injection ht with hnt
          rw [← hnt]
          exact combineLoop_keys frs state a false ns hc hloop
        · exfalso
          have hfalse : (hc || decide (frs.length ≠ state.length)) = false := by
            cases hval : (hc || decide (frs.length ≠ state.length)) with
            | false => rfl
            | true => exact absurd hval hcond
          obtain ⟨hc0, hd⟩ := Bool.or_eq_false_iff.mp hfalse
          rw [hc0] at hloop
          obtain ⟨_, hprops⟩ := combineLoop_unchanged frs state a false ns hloop
          exact hnot ⟨hprops, not_not.mp (of_decide_eq_false hd)⟩

/-- Witness for Claim C2: with the identity slice reducer and a matching
single-key state, the combined reducer returns the very input state. -/
theorem combination_reference_passthrough_witness :
    combination none exFrs exRecState exAction = .ok exRecState :=
  (combination_reference_passthrough exFrs exRecState exAction).1
    ⟨by
      intro p hp
      have hp2 : p ∈ [("a", exIdSlice)] := hp
      rw [List.mem_singleton] at hp2
      rw [hp2]
      exact ⟨rfl, by decide⟩, rfl⟩

/-- If some slice reducer returns undefined for undefined state on the
INIT action, or on every randomized probe action, the shape assertion
reports an error, whatever the starting seed. -/
theorem assertReducerShape_fails {V : Type}
    (frs : List (String × SliceReducer V))
    (h : ∃ p ∈ frs, p.2 none (mkTypeAction ActionTypes.INIT) = none ∨
           ∀ s2, p.2 none (mkTypeAction (ActionTypes.PROBE_UNKNOWN_ACTION s2)) = none) :
    ∀ seed, ∃ e, assertReducerShape seed frs = some e := by
  induction frs with
  | nil =>
      obtain ⟨p, hp, _⟩ := h
      exact absurd hp (List.not_mem_nil p)
  | cons q rest ih =>
      intro seed
      obtain ⟨key, reducer⟩ := q
      cases hinit : reducer none (mkTypeAction ActionTypes.INIT) with
      | none => exact ⟨.initUndefined key, by simp only [assertReducerShape, hinit]⟩
      | some v =>
          cases hprobe : reducer none
              (mkTypeAction (ActionTypes.PROBE_UNKNOWN_ACTION seed)) with
          | none =>
              exact ⟨.probeUndefined key, by simp only [assertReducerShape, hinit, hprobe]⟩
          | some w =>
              obtain ⟨p, hp, hfail⟩ := h
              rcases List.mem_cons.mp hp with hph | hprest
              · exfalso
                rw [hph] at hfail
                cases hfail with
                | inl hi =>
                    have hi2 : reducer none (mkTypeAction ActionTypes.INIT) = none := hi
                    rw [hinit] at hi2
                    cases hi2
                | inr hpr =>
                    have hcontra : reducer none
                        (mkTypeAction (ActionTypes.PROBE_UNKNOWN_ACTION seed)) = none :=
                      hpr seed
                    rw [hprobe] at hcontra
                    cases hcontra
              · obtain ⟨e, he⟩ := ih ⟨p, hprest, hfail⟩ (seed + 1)
                exact ⟨e, by simp only [assertReducerShape, hinit, hprobe]; exact he⟩

/-- Claim C6: if some slice reducer returns undefined for undefined state
with the INIT action, or for undefined state with any freshly randomized
probe action, then combineReducers itself returns normally (the failure
is captured, not thrown at construction), and every subsequent invocation
of the combined reducer throws the captured shape-assertion error. -/
theorem combineReducers_deferred_shape_error {V : Type} [DecidableEq V] (seed : Nat)
    (reducers : List (String × Option (SliceReducer V)))
    (h : ∃ p ∈ finalReducersOf reducers,
           p.2 none (mkTypeAction ActionTypes.INIT) = none ∨
           ∀ s2, p.2 none (mkTypeAction (ActionTypes.PROBE_UNKNOWN_ACTION s2)) = none) :
    ∃ e, (combineReducers seed reducers).1 = some e ∧
      ∀ state action, (combineReducers seed reducers).2 state action =
        .error (.shapeAssertion e) := by
  obtain ⟨e, he⟩ := assertReducerShape_fails (finalReducersOf reducers) h seed
  refine ⟨e, ?_, ?_⟩
  · simp only [combineReducers]
    exact he
  · intro state action
    simp only [combineReducers, he, combination]

/-- Witness for Claim C6: the identity slice reducer fails the INIT
check, the failure is captured at construction, and every invocation of
the combined reducer throws it. -/
theorem combineReducers_deferred_shape_error_witness :
    ∃ e, (combineReducers 0 exBadReducers).1 = some e ∧
      ∀ state action, (combineReducers 0 exBadReducers).2 state action =
        .error (.shapeAssertion e) :=
  combineReducers_deferred_shape_error 0 exBadReducers
    ⟨("a", exIdSlice),
     show ("a", exIdSlice) ∈ [("a", exIdSlice)] from List.mem_singleton.mpr rfl,
     Or.inl rfl⟩

/-- Claim C8: createStore rejects two function-typed enhancer candidates
(preloadedState together with enhancer, or enhancer together with a
fourth argument); when preloadedState is a function and the enhancer is
undefined it shifts, treating preloadedState as the enhancer and dropping
the preloaded state; and, when a function enhancer is present, it returns
exactly the delegated tail call enhancer(createStore)(reducer,
preloadedState). -/
theorem createStore_argument_normalization (reducer pre enh arg3 : JSVal) :
    (jsTypeof pre = "function" → jsTypeof enh = "function" →
       createStore reducer pre enh arg3 = .error .severalEnhancers) ∧
    (jsTypeof enh = "function" → jsTypeof arg3 = "function" →
       createStore reducer pre enh arg3 = .error .severalEnhancers) ∧
    (jsTypeof pre = "function" → jsTypeof enh = "undefined" →
       createStore reducer pre enh arg3 = .ok (.delegate pre reducer JSVal.undef)) ∧
    (jsTypeof enh = "function" → jsTypeof pre ≠ "function" → jsTypeof arg3 ≠ "function" →
       createStore reducer pre enh arg3 = .ok (.delegate enh reducer pre)) := by
  refine ⟨?_, ?_, ?_, ?_⟩
  · intro h1 h2
    unfold createStore
    rw [if_pos (Or.inl ⟨h1, h2⟩)]
  · intro h1 h2
    unfold createStore
    rw [if_pos (Or.inr ⟨h1, h2⟩)]
  · intro h1 h2
    unfold createStore
    rw [if_neg (by simp [h2]), if_pos ⟨h1, h2⟩]
    unfold createStoreTail
    rw [if_pos (by simp [h1]), if_neg (by simp [h1])]
  · intro h1 hpre harg
    unfold createStore
    rw [if_neg, if_neg (by rintro ⟨hp, hu⟩; exact hpre hp)]
    · unfold createStoreTail
      rw [if_pos (by simp [h1]), if_neg (by simp [h1])]
    · rintro (⟨hp, hq⟩ | ⟨hq, ha⟩)
      · exact hpre hp
      · exact harg ha

/-- Witness for Claim C8: a function enhancer in third position, with a
non-function preloaded state, receives the delegated tail call. -/
theorem createStore_argument_normalization_witness :
    createStore (JSVal.jsfun 1) (JSVal.jsnum 0) (JSVal.jsfun 2) JSVal.undef =
      .ok (.delegate (JSVal.jsfun 2) (JSVal.jsfun 1) (JSVal.jsnum 0)) :=
  (createStore_argument_normalization (JSVal.jsfun 1) (JSVal.jsnum 0)
      (JSVal.jsfun 2) JSVal.undef).2.2.2 rfl (by decide) (by decide)

/-- Rebuilding a record of creator functions binds every key in order. -/
theorem bindActionCreators_map_list {α R : Type} (dispatchFn : JAction → R)
    (m : List (String × (α → JAction))) :
    (m.map (fun p => ((p.1 : String), CreatorVal.fn p.2))).filterMap (fun p =>
        match p.2 with
        | .fn f => some (p.1, bindActionCreator f dispatchFn)
        | .other _ => none) =
      m.map (fun p => (p.1, fun args => dispatchFn (p.2 args))) := by
  induction m with
  | nil => rfl
  | cons p rest ih =>
      simp only [List.map_cons, List.filterMap_cons]
      rw [ih]
      rfl

/-- Claim C9: bindActionCreators on a single creator function returns the
single function that dispatches the produced action; on a record of
creator functions it preserves the shape of the record, binding every key
to the function that dispatches the action produced by the corresponding
creator. -/
theorem bindActionCreators_shape {α R : Type} (dispatchFn : JAction → R) :
    (∀ f : α → JAction,
       bindActionCreators (.single f) dispatchFn =
         .ok (.single (fun args => dispatchFn (f args)))) ∧
    (∀ m : List (String × (α → JAction)),
       bindActionCreators (.map (m.map (fun p => (p.1, .fn p.2)))) dispatchFn =
         .ok (.map (m.map (fun p => (p.1, fun args => dispatchFn (p.2 args)))))) := by
  constructor
  · intro f
    rfl
  · intro m
    simp only [bindActionCreators, Except.ok.injEq, BoundCreators.map.injEq]
    exact bindActionCreators_map_list dispatchFn m

end Redux
